import Mathlib

/-!
Shallow embedding of the opusglobe multiplayer server (`server.js`) and
verification of its specified properties.

The embedding mirrors the source:
* JS `Map` objects (`players`, `worldChanges`) become insertion-ordered
  association lists with `mapGet` / `mapSet` / `mapDelete`.
* The world-store key `` `${face}_${layer}` `` becomes `keyOf`, built on a model
  of JS number printing (`intRepr`) and of `String.prototype.split('_')`
  (`splitU`) plus `Number(...)` on sign-and-digits strings (`jsNumber`, where
  `none` stands for `NaN`/`undefined`).
* JS numbers are modelled as `ℚ` (for colors and pitch) and `Int` (for
  integer face/layer values).
-/

namespace OpusGlobe

/-! ## Characters and decimal digits (model of JS integer printing/parsing) -/

/-- The decimal digit character for `d` (used only with `d < 10`). -/
def digitChar : Nat → Char
  | 0 => '0' | 1 => '1' | 2 => '2' | 3 => '3' | 4 => '4'
  | 5 => '5' | 6 => '6' | 7 => '7' | 8 => '8' | _ => '9'

/-- Numeric value of a digit character. -/
def digitVal (c : Char) : Nat := c.toNat - 48

/-- Whether `c` is a decimal digit. -/
def isDigitC (c : Char) : Bool := decide (48 ≤ c.toNat ∧ c.toNat ≤ 57)

/-- Decimal digit string of a natural number, with explicit fuel so that the
recursion is structural (the fuel is always sufficient when `n < fuel`). -/
def natDigitsAux : Nat → Nat → List Char
  | 0, _ => []
  | fuel + 1, n =>
    if n < 10 then [digitChar n]
    else natDigitsAux fuel (n / 10) ++ [digitChar (n % 10)]

/-- Decimal digit string of a natural number, as produced by JS number
printing for nonnegative integers. -/
def natDigits (n : Nat) : List Char := natDigitsAux (n + 1) n

/-- Value of a digit string, as computed by decimal positional reading. -/
def digitsVal (s : List Char) : Nat := s.foldl (fun a c => 10 * a + digitVal c) 0

/-- Decimal representation of an integer as printed by JS template literals
for integer-valued numbers (sign followed by digits). -/
def intRepr (n : Int) : List Char :=
  if n < 0 then '-' :: natDigits n.natAbs else natDigits n.toNat

/-- Model of JS `Number(s)` on the sign-and-digits fragment relevant to world
keys: the empty string parses to `0` (a JS quirk), a digit string (optionally
with a leading minus) parses to the corresponding integer, anything else is
`NaN` (`none`). -/
def jsNumber (s : List Char) : Option Int :=
  if s = [] then some 0
  else if s.head? = some '-' then
    if s.tail.all isDigitC = true ∧ s.tail ≠ [] then some (-(digitsVal s.tail : Int)) else none
  else if s.all isDigitC = true then some ((digitsVal s : Int)) else none

/-! ## Model of `String.prototype.split('_')` -/

/-- JS `s.split('_')`: the list of maximal `'_'`-free segments (the empty
string splits to `[""]`). -/
def splitU : List Char → List (List Char)
  | [] => [[]]
  | c :: rest =>
    if c = '_' then [] :: splitU rest
    else
      match splitU rest with
      | [] => [[c]]
      | s :: ss => (c :: s) :: ss

/-! ## JS values appearing in world-store keys and blocks -/

/-- Primitive JS values that clients can put in `face` / `layer` / `block`
fields: integer-valued numbers and strings (the fragment the claims are
about). -/
inductive JPrim where
  | jnum (n : Int)
  | jstr (s : List Char)
deriving DecidableEq

/-- Template-literal interpolation `` `${x}` `` of a possibly-absent field
value (`none` is JS `undefined`, which prints as `"undefined"`). -/
def encodeOpt : Option JPrim → List Char
  | none => "undefined".data
  | some (JPrim.jnum n) => intRepr n
  | some (JPrim.jstr s) => s

/-- The world-store key `` `${face}_${layer}` `` (src/server.js line 155). -/
def keyOf (face layer : Option JPrim) : List Char :=
  encodeOpt face ++ '_' :: encodeOpt layer

/-- Decoding of a stored key for `worldState` replay:
`key.split('_').map(Number)` destructured into `[face, layer]`
(src/server.js line 133). `none` stands for `NaN`/`undefined`. -/
def decodeKey (k : List Char) : Option Int × Option Int :=
  match splitU k with
  | a :: b :: _ => (jsNumber a, jsNumber b)
  | [a] => (jsNumber a, none)
  | [] => (none, none)

/-! ## Model of JS `Map` as an insertion-ordered association list -/

/-- JS `Map.prototype.get`. -/
def mapGet {α β : Type} [DecidableEq α] : List (α × β) → α → Option β
  | [], _ => none
  | p :: rest, k => if p.1 = k then some p.2 else mapGet rest k

/-- JS `Map.prototype.set`: replace in place if the key is present, otherwise
append (preserving insertion-order iteration). -/
def mapSet {α β : Type} [DecidableEq α] : List (α × β) → α → β → List (α × β)
  | [], k, v => [(k, v)]
  | p :: rest, k, v => if p.1 = k then (k, v) :: rest else p :: mapSet rest k v

/-- JS `Map.prototype.delete`. -/
def mapDelete {α β : Type} [DecidableEq α] (m : List (α × β)) (k : α) : List (α × β) :=
  m.filter (fun p => p.1 ≠ k)

/-! ## The World Delta Store -/

/-- The `worldChanges` map: world-store keys to stored block values (a stored
block may be `undefined` when the client omitted the field). -/
abbrev Store := List (List Char × Option JPrim)

/-- Spec operation `apply(face, layer, block)`:
`worldChanges.set(`${face}_${layer}`, block)` (src/server.js lines 155-156). -/
def applyChange (s : Store) (face layer block : Option JPrim) : Store :=
  mapSet s (keyOf face layer) block

/-- Spec operation `snapshotAll()`: the `changes` array built for a
`worldState` message (src/server.js lines 131-135). -/
def snapshotAll (s : Store) : List (Option Int × Option Int × Option JPrim) :=
  s.map (fun p => ((decodeKey p.1).1, (decodeKey p.1).2, p.2))

/-! ## Server data model -/

/-- Connection handles (JS `ws` socket objects, identified abstractly). -/
abbrev Conn := Nat

/-- Player identities (the UUID strings of `generateUUID`, identified
abstractly; they are produced by the Identity Generator). -/
abbrev ID := Nat

/-- 3-component vectors (`position`, `forward`), JS numbers modelled as `ℚ`. -/
abbrev Vec3 := ℚ × ℚ × ℚ

/-- An avatar color with three channels. -/
structure Color where
  r : ℚ
  g : ℚ
  b : ℚ
deriving DecidableEq

/-- `generateColor` (src/server.js lines 60-66): each channel is
`Math.random() * 0.7 + 0.3`; the three `Math.random()` results are passed in
as `r1`, `r2`, `r3`. -/
def generateColor (r1 r2 r3 : ℚ) : Color :=
  { r := r1 * (7/10) + 3/10
    g := r2 * (7/10) + 3/10
    b := r3 * (7/10) + 3/10 }

/-- The per-connection record stored in the `players` map
(src/server.js lines 96-102). `position`/`forward` are `Option` because a
`position` message may omit them, storing JS `undefined`. -/
structure PlayerData where
  id : ID
  color : Color
  position : Option Vec3
  forward : Option Vec3
  pitch : ℚ
deriving DecidableEq

/-- The server's mutable state: the socket set `wss.clients` (with each
socket's `readyState === OPEN` flag), the `players` map and the
`worldChanges` map. -/
structure ServerState where
  clients : List (Conn × Bool)
  players : List (Conn × PlayerData)
  worldChanges : Store
deriving DecidableEq

/-- The empty server state at process start. -/
def initState : ServerState := ⟨[], [], []⟩

/-- Outbound wire messages (fields as serialized by the handlers). -/
inductive OutMsg where
  | init (id : ID) (color : Color)
  | playerJoin (id : ID) (color : Color) (position forward : Option Vec3) (pitch : ℚ)
  | worldState (changes : List (Option Int × Option Int × Option JPrim))
  | blockChange (face layer block : Option JPrim)
  | playerMove (id : ID) (position forward : Option Vec3) (pitch : ℚ)
  | playerLeave (id : ID)
deriving DecidableEq

/-- Inbound messages after `JSON.parse` and `data.type` dispatch: the two
recognized shapes with all their fields optional (`none` is an absent field),
any message with an unrecognized `type`, and a payload on which `JSON.parse`
throws. -/
inductive InMsg where
  | blockChange (face layer block : Option JPrim)
  | position (position forward : Option Vec3) (pitch : Option ℚ)
  | other
  | unparsable
deriving DecidableEq

/-- JS `x || d` on a number `x`: `0` is falsy, so it yields `d` at `0`. -/
def jsOrQ (x d : ℚ) : ℚ := if x = 0 then d else x

/-- JS `x || d` where `x` is a possibly-absent number field (`undefined` is
falsy). This models `data.pitch || 0`. -/
def jsOrOpt (x : Option ℚ) (d : ℚ) : ℚ :=
  match x with
  | none => d
  | some v => jsOrQ v d

/-- The truthiness test `playerData && playerData.id !== excludeId` of
`broadcast` (src/server.js line 74), on the result of `players.get(client)`. -/
def sendFlagOpt (excludeId : Option ID) : Option PlayerData → Bool
  | some pd => decide (excludeId ≠ some pd.id)
  | none => false

/-- The `wss.clients.forEach` body of `broadcast` (src/server.js lines 69-79):
send to every open socket whose registered `PlayerRecord` id differs from
`excludeId` (`none` models the default `excludeId = null`, which never equals
an id). -/
def broadcastList (players : List (Conn × PlayerData)) (msg : OutMsg)
    (excludeId : Option ID) : List (Conn × Bool) → List (Conn × OutMsg)
  | [] => []
  | cl :: rest =>
    if cl.2 && sendFlagOpt excludeId (mapGet players cl.1) then
      (cl.1, msg) :: broadcastList players msg excludeId rest
    else broadcastList players msg excludeId rest

/-- `broadcast(message, excludeId)` over the current server state. -/
def broadcast (st : ServerState) (msg : OutMsg) (excludeId : Option ID) :
    List (Conn × OutMsg) :=
  broadcastList st.players msg excludeId st.clients

/-- The `players.forEach` replay loop of the connection handler
(src/server.js lines 116-127): one `playerJoin` to the new socket per entry
other than the new socket itself. -/
def joinMsgs (ws : Conn) : List (Conn × PlayerData) → List (Conn × OutMsg)
  | [] => []
  | p :: rest =>
    if p.1 ≠ ws then
      (ws, OutMsg.playerJoin p.2.id p.2.color p.2.position p.2.forward (jsOrQ p.2.pitch 0))
        :: joinMsgs ws rest
    else joinMsgs ws rest

/-- The `wss.on('connection')` handler (src/server.js lines 91-147): register
the socket, send `init`, replay existing players and (if non-empty) the world
deltas to the new socket, then broadcast the join excluding the new id.
`pid` is the freshly generated UUID and `r1 r2 r3` the random draws consumed
by `generateColor`. Returns the new state and the sends in order. -/
def onConnection (st : ServerState) (ws : Conn) (pid : ID) (r1 r2 r3 : ℚ) :
    ServerState × List (Conn × OutMsg) :=
  let color := generateColor r1 r2 r3
  let pd : PlayerData :=
    { id := pid, color := color, position := some (0, 102, 0)
      forward := some (0, 0, -1), pitch := 0 }
  let st' : ServerState :=
    { clients := st.clients ++ [(ws, true)]
      players := mapSet st.players ws pd
      worldChanges := st.worldChanges }
  let handshake : List (Conn × OutMsg) :=
    (ws, OutMsg.init pid color) ::
      (joinMsgs ws st'.players ++
        (if st.worldChanges ≠ [] then
          [(ws, OutMsg.worldState (snapshotAll st.worldChanges))]
        else []))
  (st', handshake ++ broadcast st' (OutMsg.playerJoin pid color pd.position pd.forward pd.pitch) (some pid))

/-- The `ws.on('message')` handler (src/server.js lines 150-181). The closure
variables `playerId`/`playerData` are recovered from the registry entry for
`ws` (identical for every event occurring while the connection is open); if
`ws` is not registered no event is delivered, so that branch is inert. -/
def onMessage (st : ServerState) (ws : Conn) (m : InMsg) :
    ServerState × List (Conn × OutMsg) :=
  match mapGet st.players ws with
  | none => (st, [])
  | some pd =>
    match m with
    | InMsg.blockChange face layer block =>
      let st' : ServerState :=
        { st with worldChanges := applyChange st.worldChanges face layer block }
      (st', broadcast st' (OutMsg.blockChange face layer block) (some pd.id))
    | InMsg.position pos fwd pitch =>
      let pd' : PlayerData :=
        { pd with position := pos, forward := fwd, pitch := jsOrOpt pitch 0 }
      let st' : ServerState := { st with players := mapSet st.players ws pd' }
      (st', broadcast st' (OutMsg.playerMove pd.id pos fwd (jsOrOpt pitch 0)) (some pd.id))
    | InMsg.other => (st, [])
    | InMsg.unparsable => (st, [])

/-- The `ws.on('close')` handler (src/server.js lines 184-193): the transport
removes the closed socket from `wss.clients`, the handler deletes the registry
entry and broadcasts `playerLeave` with the closure's `playerId` (passed as
`pid`) and no exclusion. -/
def onClose (st : ServerState) (ws : Conn) (pid : ID) :
    ServerState × List (Conn × OutMsg) :=
  let st' : ServerState :=
    { clients := st.clients.filter (fun cl => cl.1 ≠ ws)
      players := mapDelete st.players ws
      worldChanges := st.worldChanges }
  (st', broadcast st' (OutMsg.playerLeave pid) none)

/-- The messages delivered to connection `c` by a list of sends, in order. -/
def sendsTo (c : Conn) : List (Conn × OutMsg) → List OutMsg
  | [] => []
  | s :: rest => if s.1 = c then s.2 :: sendsTo c rest else sendsTo c rest

/-! ## Event traces (for the registry-size invariant) -/

/-- Connection lifecycle events: a transport accept (with the randomness the
handler consumes), an inbound message, a transport close. -/
inductive Event where
  | connect (ws : Conn) (pid : ID) (r1 r2 r3 : ℚ)
  | message (ws : Conn) (m : InMsg)
  | close (ws : Conn)

/-- One event handled against the current state. For `close`, the closure
`playerId` is the registered record's id (the record is present whenever the
transport fires `close` for a registered connection). -/
def step (st : ServerState) : Event → ServerState × List (Conn × OutMsg)
  | Event.connect ws pid r1 r2 r3 => onConnection st ws pid r1 r2 r3
  | Event.message ws m => onMessage st ws m
  | Event.close ws =>
    match mapGet st.players ws with
    | some pd => onClose st ws pd.id
    | none => (st, [])

/-- Run a trace of events from a state, keeping the final state. -/
def run : ServerState → List Event → ServerState
  | st, [] => st
  | st, e :: rest => run (step st e).1 rest

/-- Trace validity: connection handles are fresh at `connect` (the transport
never reuses a socket object) and `message`/`close` only occur on currently
open connections. `used` accumulates all handles ever connected, `opened` the
currently open ones. -/
def validEvents : List Conn → List Conn → List Event → Bool
  | _, _, [] => true
  | used, opened, Event.connect ws _ _ _ _ :: rest =>
    !(decide (ws ∈ used)) && validEvents (ws :: used) (opened ++ [ws]) rest
  | used, opened, Event.message ws _ :: rest =>
    decide (ws ∈ opened) && validEvents used opened rest
  | used, opened, Event.close ws :: rest =>
    decide (ws ∈ opened) && validEvents used (opened.filter (fun c => c ≠ ws)) rest

/-- The connections that are open after a trace: those that completed
register and have not yet completed unregister. -/
def openAfter : List Conn → List Event → List Conn
  | opened, [] => opened
  | opened, Event.connect ws _ _ _ _ :: rest => openAfter (opened ++ [ws]) rest
  | opened, Event.message _ _ :: rest => openAfter opened rest
  | opened, Event.close ws :: rest => openAfter (opened.filter (fun c => c ≠ ws)) rest

/-! ## Concrete fixtures used by witnesses and counterexamples -/

/-- A fixed color for fixture records. -/
def color0 : Color := ⟨1/2, 1/2, 1/2⟩

/-- Fixture player record for connection 0. -/
def pdA : PlayerData := ⟨10, color0, some (0, 102, 0), some (0, 0, -1), 0⟩

/-- Fixture player record for connection 1. -/
def pdB : PlayerData := ⟨11, color0, some (1, 102, 0), some (0, 0, -1), 0⟩

/-- Fixture player record for connection 2. -/
def pdC : PlayerData := ⟨12, color0, some (2, 102, 0), some (0, 0, -1), 0⟩

/-- A fixture state with two open registered connections 0 and 1. -/
def st2 : ServerState :=
  ⟨[(0, true), (1, true)], [(0, pdA), (1, pdB)], []⟩

/-- A fixture state with three open registered connections 0, 1 and 2. -/
def st3 : ServerState :=
  ⟨[(0, true), (1, true), (2, true)], [(0, pdA), (1, pdB), (2, pdC)], []⟩

/-- A fixture event trace: two connects followed by one close. -/
def events0 : List Event :=
  [Event.connect 0 10 0 0 0, Event.connect 1 11 (1/2) (1/2) (1/2), Event.close 0]

/-! ## Delivery lemmas about `broadcastList` and `sendsTo` -/

/-! ## Verification -/

theorem digitVal_digitChar {d : Nat} (h : d < 10) : digitVal (digitChar d) = d := by
  interval_cases d <;> rfl

theorem isDigitC_digitChar {d : Nat} (h : d < 10) : isDigitC (digitChar d) = true := by
  interval_cases d <;> rfl

theorem ne_underscore_of_isDigitC {c : Char} (h : isDigitC c = true) : c ≠ '_' := by
  intro e
  rw [e] at h
  exact absurd h (by decide)

theorem ne_minus_of_isDigitC {c : Char} (h : isDigitC c = true) : c ≠ '-' := by
  intro e
  rw [e] at h
  exact absurd h (by decide)

theorem natDigitsAux_all_digits :
    ∀ (fuel n : Nat), n < fuel → ∀ c ∈ natDigitsAux fuel n, isDigitC c = true := by
  intro fuel
  induction fuel with
  | zero => intro n h; omega
  | succ f ih =>
    intro n h c hc
    rw [natDigitsAux] at hc
    by_cases h10 : n < 10
    · rw [if_pos h10] at hc
      simp only [List.mem_singleton] at hc
      subst hc
      exact isDigitC_digitChar h10
    · rw [if_neg h10] at hc
      rcases List.mem_append.mp hc with h1 | h2
      · exact ih (n / 10) (by omega) c h1
      · simp only [List.mem_singleton] at h2
        subst h2
        exact isDigitC_digitChar (by omega)

theorem natDigitsAux_ne_nil :
    ∀ (fuel n : Nat), n < fuel → natDigitsAux fuel n ≠ [] := by
  intro fuel
  induction fuel with
  | zero => intro n h; omega
  | succ f _ =>
    intro n h
    rw [natDigitsAux]
    by_cases h10 : n < 10
    · rw [if_pos h10]; simp
    · rw [if_neg h10]; simp

theorem digitsVal_append_singleton (s : List Char) (c : Char) :
    digitsVal (s ++ [c]) = 10 * digitsVal s + digitVal c := by
  simp [digitsVal, List.foldl_append]

theorem digitsVal_natDigitsAux :
    ∀ (fuel n : Nat), n < fuel → digitsVal (natDigitsAux fuel n) = n := by
  intro fuel
  induction fuel with
  | zero => intro n h; omega
  | succ f ih =>
    intro n h
    rw [natDigitsAux]
    by_cases h10 : n < 10
    · rw [if_pos h10]
      simp [digitsVal, digitVal_digitChar h10]
    · rw [if_neg h10]
      rw [digitsVal_append_singleton, ih (n / 10) (by omega),
        digitVal_digitChar (by omega : n % 10 < 10)]
      omega

theorem natDigits_all_digits (n : Nat) : ∀ c ∈ natDigits n, isDigitC c = true :=
  natDigitsAux_all_digits (n + 1) n (Nat.lt_succ_self n)

theorem natDigits_ne_nil (n : Nat) : natDigits n ≠ [] :=
  natDigitsAux_ne_nil (n + 1) n (Nat.lt_succ_self n)

theorem digitsVal_natDigits (n : Nat) : digitsVal (natDigits n) = n :=
  digitsVal_natDigitsAux (n + 1) n (Nat.lt_succ_self n)

theorem jsNumber_natDigits (n : Nat) : jsNumber (natDigits n) = some (n : Int) := by
  have hne := natDigits_ne_nil n
  have hall : (natDigits n).all isDigitC = true :=
    List.all_eq_true.mpr (natDigits_all_digits n)
  have hhead : ¬ (natDigits n).head? = some '-' := by
    cases hd : natDigits n with
    | nil => exact absurd hd hne
    | cons c cs =>
      simp only [List.head?, Option.some.injEq]
      intro hcm
      have hcmem : c ∈ natDigits n := by rw [hd]; exact List.mem_cons_self _ _
      exact ne_minus_of_isDigitC (natDigits_all_digits n c hcmem) hcm
  rw [jsNumber, if_neg hne, if_neg hhead, if_pos hall, digitsVal_natDigits]

theorem jsNumber_intRepr (n : Int) : jsNumber (intRepr n) = some n := by
  rw [intRepr]
  by_cases hn : n < 0
  · rw [if_pos hn]
    have hne := natDigits_ne_nil n.natAbs
    have hall : (natDigits n.natAbs).all isDigitC = true :=
      List.all_eq_true.mpr (natDigits_all_digits n.natAbs)
    rw [jsNumber, if_neg (by simp), if_pos (by simp)]
    simp only [List.tail_cons]
    rw [if_pos ⟨hall, hne⟩, digitsVal_natDigits]
    congr 1
    omega
  · rw [if_neg hn, jsNumber_natDigits]
    congr 1
    omega

theorem underscore_not_mem_natDigits (n : Nat) : '_' ∉ natDigits n := by
  intro h
  exact ne_underscore_of_isDigitC (natDigits_all_digits n '_' h) rfl

theorem underscore_not_mem_intRepr (n : Int) : '_' ∉ intRepr n := by
  rw [intRepr]
  by_cases hn : n < 0
  · rw [if_pos hn]
    intro h
    rcases List.mem_cons.mp h with h1 | h2
    · exact absurd h1.symm (by decide)
    · exact underscore_not_mem_natDigits _ h2
  · rw [if_neg hn]
    exact underscore_not_mem_natDigits _

theorem splitU_ne_nil (s : List Char) : splitU s ≠ [] := by
  cases s with
  | nil => simp [splitU]
  | cons c rest =>
    rw [splitU]
    by_cases hc : c = '_'
    · rw [if_pos hc]; simp
    · rw [if_neg hc]
      cases splitU rest <;> simp

theorem splitU_no_underscore (s : List Char) (h : '_' ∉ s) : splitU s = [s] := by
  induction s with
  | nil => rfl
  | cons c rest ih =>
    have hc : c ≠ '_' := fun e => h (e ▸ List.mem_cons_self c rest)
    have hrest : '_' ∉ rest := fun e => h (List.mem_cons_of_mem c e)
    rw [splitU, if_neg hc, ih hrest]

theorem splitU_append (a b : List Char) (h : '_' ∉ a) :
    splitU (a ++ '_' :: b) = a :: splitU b := by
  induction a with
  | nil => simp [splitU]
  | cons c rest ih =>
    have hc : c ≠ '_' := fun e => h (e ▸ List.mem_cons_self c rest)
    have hrest : '_' ∉ rest := fun e => h (List.mem_cons_of_mem c e)
    rw [List.cons_append, splitU, if_neg hc, ih hrest]

theorem decodeKey_keyOf_int (f l : Int) :
    decodeKey (keyOf (some (JPrim.jnum f)) (some (JPrim.jnum l))) = (some f, some l) := by
  rw [decodeKey, keyOf]
  show (match splitU (intRepr f ++ '_' :: intRepr l) with
    | a :: b :: _ => (jsNumber a, jsNumber b)
    | [a] => (jsNumber a, none)
    | [] => (none, none)) = _
  rw [splitU_append _ _ (underscore_not_mem_intRepr f),
    splitU_no_underscore _ (underscore_not_mem_intRepr l)]
  simp [jsNumber_intRepr]

theorem mapGet_eq_none_iff {α β : Type} [DecidableEq α] (m : List (α × β)) (k : α) :
    mapGet m k = none ↔ ∀ p ∈ m, p.1 ≠ k := by
  induction m with
  | nil => simp [mapGet]
  | cons p rest ih =>
    rw [mapGet]
    by_cases hp : p.1 = k
    · simp [hp]
    · simp only [if_neg hp, ih, List.mem_cons]
      constructor
      · intro h q hq
        rcases hq with hq | hq
        · exact hq ▸ hp
        · exact h q hq
      · intro h q hq
        exact h q (Or.inr hq)

theorem mapGet_mapSet_self {α β : Type} [DecidableEq α] (m : List (α × β)) (k : α) (v : β) :
    mapGet (mapSet m k v) k = some v := by
  induction m with
  | nil => simp [mapSet, mapGet]
  | cons p rest ih =>
    rw [mapSet]
    by_cases hp : p.1 = k
    · rw [if_pos hp, mapGet, if_pos rfl]
    · rw [if_neg hp, mapGet, if_neg hp]
      exact ih

theorem mapGet_mapSet_ne {α β : Type} [DecidableEq α] (m : List (α × β)) (k k' : α) (v : β)
    (h : k' ≠ k) : mapGet (mapSet m k v) k' = mapGet m k' := by
  induction m with
  | nil =>
    simp only [mapSet, mapGet]
    rw [if_neg (fun e => h e.symm)]
  | cons p rest ih =>
    rw [mapSet]
    by_cases hp : p.1 = k
    · rw [if_pos hp]
      simp only [mapGet]
      rw [if_neg (fun e => h e.symm), if_neg (fun e => h (hp.symm.trans e).symm)]
    · rw [if_neg hp]
      simp only [mapGet]
      by_cases hp' : p.1 = k'
      · rw [if_pos hp', if_pos hp']
      · rw [if_neg hp', if_neg hp', ih]

theorem mapSet_eq_append {α β : Type} [DecidableEq α] (m : List (α × β)) (k : α) (v : β)
    (h : mapGet m k = none) : mapSet m k v = m ++ [(k, v)] := by
  induction m with
  | nil => rfl
  | cons p rest ih =>
    rw [mapGet] at h
    by_cases hp : p.1 = k
    · rw [if_pos hp] at h; exact absurd h (by simp)
    · rw [if_neg hp] at h
      rw [mapSet, if_neg hp, ih h, List.cons_append]

theorem mem_mapSet_self {α β : Type} [DecidableEq α] (m : List (α × β)) (k : α) (v : β) :
    (k, v) ∈ mapSet m k v := by
  induction m with
  | nil => simp [mapSet]
  | cons p rest ih =>
    rw [mapSet]
    by_cases hp : p.1 = k
    · rw [if_pos hp]; exact List.mem_cons_self _ _
    · rw [if_neg hp]; exact List.mem_cons_of_mem _ ih

theorem keys_mapSet_of_mem {α β : Type} [DecidableEq α] (m : List (α × β)) (k : α) (v v' : β)
    (h : mapGet m k = some v') : (mapSet m k v).map Prod.fst = m.map Prod.fst := by
  induction m with
  | nil => simp [mapGet] at h
  | cons p rest ih =>
    rw [mapGet] at h
    rw [mapSet]
    by_cases hp : p.1 = k
    · rw [if_pos hp]; simp [hp]
    · rw [if_neg hp] at h
      rw [if_neg hp, List.map_cons, List.map_cons, ih h]

theorem keys_mapDelete {α β : Type} [DecidableEq α] (m : List (α × β)) (k : α) :
    (mapDelete m k).map Prod.fst = (m.map Prod.fst).filter (fun x => x ≠ k) := by
  induction m with
  | nil => rfl
  | cons p rest ih =>
    simp only [mapDelete, List.map_cons, List.filter_cons]
    by_cases hp : p.1 = k
    · rw [if_neg (by simp [hp]), if_neg (by simp [hp])]
      exact ih
    · rw [if_pos (by simp [hp]), if_pos (by simp [hp]), List.map_cons]
      exact congrArg (List.cons p.1) ih

theorem mapGet_mapDelete_self {α β : Type} [DecidableEq α] (m : List (α × β)) (k : α) :
    mapGet (mapDelete m k) k = none := by
  rw [mapGet_eq_none_iff]
  intro p hp
  have := List.of_mem_filter hp
  simpa using this

theorem mapGet_mapDelete_ne {α β : Type} [DecidableEq α] (m : List (α × β)) (k k' : α)
    (h : k' ≠ k) : mapGet (mapDelete m k) k' = mapGet m k' := by
  induction m with
  | nil => rfl
  | cons p rest ih =>
    rw [mapDelete, List.filter_cons]
    by_cases hp : p.1 = k
    · rw [if_neg (by simp [hp]), mapGet, if_neg (by rw [hp]; exact fun e => h e.symm)]
      exact ih
    · rw [if_pos (by simpa using hp), mapGet, mapGet]
      by_cases hp' : p.1 = k'
      · rw [if_pos hp', if_pos hp']
      · rw [if_neg hp', if_neg hp']
        exact ih

theorem mapGet_append_of_none {α β : Type} [DecidableEq α] (m l : List (α × β)) (k : α)
    (h : mapGet m k = none) : mapGet (m ++ l) k = mapGet l k := by
  induction m with
  | nil => rfl
  | cons p rest ih =>
    rw [mapGet] at h
    by_cases hp : p.1 = k
    · rw [if_pos hp] at h; exact absurd h (by simp)
    · rw [if_neg hp] at h
      rw [List.cons_append, mapGet, if_neg hp]
      exact ih h

theorem mapGet_some_val_mem {α β : Type} [DecidableEq α] (m : List (α × β)) (k : α) (v : β)
    (h : mapGet m k = some v) : v ∈ m.map Prod.snd := by
  induction m with
  | nil => simp [mapGet] at h
  | cons p rest ih =>
    rw [mapGet] at h
    by_cases hp : p.1 = k
    · rw [if_pos hp] at h
      simp only [Option.some.injEq] at h
      simp [← h]
    · rw [if_neg hp] at h
      simp [ih h]

theorem sendsTo_append (c : Conn) (a b : List (Conn × OutMsg)) :
    sendsTo c (a ++ b) = sendsTo c a ++ sendsTo c b := by
  induction a with
  | nil => rfl
  | cons s rest ih =>
    simp only [List.cons_append, sendsTo, List.append_eq]
    by_cases hs : s.1 = c
    · rw [if_pos hs, if_pos hs, ih, List.cons_append]
    · rw [if_neg hs, if_neg hs, ih]

theorem broadcastList_cond_true (players : List (Conn × PlayerData)) (msg : OutMsg)
    (ex : Option ID) (cl : Conn × Bool) (rest : List (Conn × Bool)) (pd : PlayerData)
    (hcb : cl.2 = true) (hm : mapGet players cl.1 = some pd) (hex : ex ≠ some pd.id) :
    broadcastList players msg ex (cl :: rest) =
      (cl.1, msg) :: broadcastList players msg ex rest := by
  rw [broadcastList, hm, hcb, sendFlagOpt, Bool.true_and,
    if_pos (by simpa using hex)]

theorem broadcastList_cond_false (players : List (Conn × PlayerData)) (msg : OutMsg)
    (ex : Option ID) (cl : Conn × Bool) (rest : List (Conn × Bool))
    (h : cl.2 = false ∨ mapGet players cl.1 = none ∨
      ∃ pd, mapGet players cl.1 = some pd ∧ ex = some pd.id) :
    broadcastList players msg ex (cl :: rest) = broadcastList players msg ex rest := by
  rw [broadcastList]
  rcases h with h | h | ⟨pd, hm, hex⟩
  · rw [h, Bool.false_and, if_neg (by simp)]
  · rw [h, sendFlagOpt, Bool.and_false, if_neg (by simp)]
  · rw [hm, sendFlagOpt, if_neg (by simp [hex])]

theorem broadcastList_snd (players : List (Conn × PlayerData)) (msg : OutMsg)
    (ex : Option ID) (cls : List (Conn × Bool)) :
    ∀ s ∈ broadcastList players msg ex cls, s.2 = msg := by
  induction cls with
  | nil => simp [broadcastList]
  | cons cl rest ih =>
    intro s hs
    rw [broadcastList] at hs
    by_cases hc : (cl.2 && sendFlagOpt ex (mapGet players cl.1)) = true
    · rw [if_pos hc] at hs
      rcases List.mem_cons.mp hs with h1 | h2
      · rw [h1]
      · exact ih s h2
    · rw [if_neg hc] at hs
      exact ih s hs

theorem sendsTo_broadcastList_nil (players : List (Conn × PlayerData)) (msg : OutMsg)
    (ex : Option ID) (c : Conn) (cls : List (Conn × Bool))
    (h : ∀ pd, mapGet players c = some pd → ex = some pd.id) :
    sendsTo c (broadcastList players msg ex cls) = [] := by
  induction cls with
  | nil => rfl
  | cons cl rest ih =>
    rw [broadcastList]
    by_cases hc : (cl.2 && sendFlagOpt ex (mapGet players cl.1)) = true
    · rw [if_pos hc, sendsTo]
      by_cases hcc : cl.1 = c
      · exfalso
        rcases Bool.and_eq_true_iff.mp hc with ⟨_, hflag⟩
        cases hm : mapGet players cl.1 with
        | none => rw [hm, sendFlagOpt] at hflag; exact absurd hflag (by simp)
        | some pd =>
          rw [hm, sendFlagOpt, decide_eq_true_eq] at hflag
          exact hflag (h pd (hcc ▸ hm))
      · rw [if_neg hcc]; exact ih
    · rw [if_neg hc]; exact ih

theorem sendsTo_broadcastList_not_mem (players : List (Conn × PlayerData)) (msg : OutMsg)
    (ex : Option ID) (c : Conn) (cls : List (Conn × Bool))
    (h : c ∉ cls.map Prod.fst) :
    sendsTo c (broadcastList players msg ex cls) = [] := by
  induction cls with
  | nil => rfl
  | cons cl rest ih =>
    simp only [List.map_cons, List.mem_cons] at h
    push_neg at h
    rw [broadcastList]
    by_cases hc : (cl.2 && sendFlagOpt ex (mapGet players cl.1)) = true
    · rw [if_pos hc, sendsTo, if_neg (fun e => h.1 e.symm)]
      exact ih h.2
    · rw [if_neg hc]; exact ih h.2

theorem sendsTo_broadcastList_single (players : List (Conn × PlayerData)) (msg : OutMsg)
    (ex : Option ID) (c : Conn) (cls : List (Conn × Bool)) (pd : PlayerData)
    (hnd : (cls.map Prod.fst).Nodup) (hmem : (c, true) ∈ cls)
    (hpd : mapGet players c = some pd) (hex : ex ≠ some pd.id) :
    sendsTo c (broadcastList players msg ex cls) = [msg] := by
  induction cls with
  | nil => simp at hmem
  | cons cl rest ih =>
    simp only [List.map_cons, List.nodup_cons] at hnd
    rcases List.mem_cons.mp hmem with hcl | hrest
    · have he1 : cl.1 = c := by rw [← hcl]
      have he2 : cl.2 = true := by rw [← hcl]
      rw [broadcastList_cond_true players msg ex cl rest pd he2 (he1 ▸ hpd) hex,
        sendsTo, if_pos he1, sendsTo_broadcastList_not_mem _ _ _ _ _ (he1 ▸ hnd.1)]
    · have hc : cl.1 ≠ c := by
        intro e
        exact hnd.1 (e ▸ List.mem_map_of_mem Prod.fst hrest)
      rw [broadcastList]
      by_cases hcnd : (cl.2 && sendFlagOpt ex (mapGet players cl.1)) = true
      · rw [if_pos hcnd, sendsTo, if_neg hc]
        exact ih hnd.2 hrest
      · rw [if_neg hcnd]
        exact ih hnd.2 hrest

theorem joinMsgs_append (ws : Conn) (a b : List (Conn × PlayerData)) :
    joinMsgs ws (a ++ b) = joinMsgs ws a ++ joinMsgs ws b := by
  induction a with
  | nil => rfl
  | cons p rest ih =>
    simp only [List.cons_append, joinMsgs, List.append_eq]
    by_cases hp : p.1 ≠ ws
    · rw [if_pos hp, if_pos hp, ih, List.cons_append]
    · rw [if_neg hp, if_neg hp, ih]

theorem sendsTo_joinMsgs (ws : Conn) (m : List (Conn × PlayerData))
    (h : ∀ p ∈ m, p.1 ≠ ws) :
    sendsTo ws (joinMsgs ws m) =
      m.map (fun p =>
        OutMsg.playerJoin p.2.id p.2.color p.2.position p.2.forward (jsOrQ p.2.pitch 0)) := by
  induction m with
  | nil => rfl
  | cons p rest ih =>
    have hp : p.1 ≠ ws := h p (List.mem_cons_self p rest)
    rw [joinMsgs, if_pos hp, sendsTo, if_pos rfl, List.map_cons,
      ih (fun q hq => h q (List.mem_cons_of_mem p hq))]

theorem mapGet_some_mem_map {α β γ : Type} [DecidableEq α] (f : β → γ)
    (m : List (α × β)) (k : α) (v : β) (h : mapGet m k = some v) :
    f v ∈ m.map (fun p => f p.2) := by
  induction m with
  | nil => simp [mapGet] at h
  | cons p rest ih =>
    rw [mapGet] at h
    by_cases hp : p.1 = k
    · rw [if_pos hp] at h
      injection h with h'
      simp [← h']
    · rw [if_neg hp] at h
      simp [ih h]

theorem mapGet_ids_ne {m : List (Conn × PlayerData)} {a b : Conn} {pda pdb : PlayerData}
    (hids : (m.map (fun p => p.2.id)).Nodup)
    (ha : mapGet m a = some pda) (hb : mapGet m b = some pdb) (hab : a ≠ b) :
    pda.id ≠ pdb.id := by
  induction m with
  | nil => simp [mapGet] at ha
  | cons p rest ih =>
    simp only [List.map_cons, List.nodup_cons] at hids
    rw [mapGet] at ha hb
    by_cases hpa : p.1 = a
    · rw [if_pos hpa] at ha
      injection ha with ha'
      rw [if_neg (fun e => hab (hpa.symm.trans e))] at hb
      intro e
      apply hids.1
      rw [ha', e]
      exact mapGet_some_mem_map (fun pd => pd.id) rest b pdb hb
    · rw [if_neg hpa] at ha
      by_cases hpb : p.1 = b
      · rw [if_pos hpb] at hb
        injection hb with hb'
        intro e
        apply hids.1
        rw [hb', ← e]
        exact mapGet_some_mem_map (fun pd => pd.id) rest a pda ha
      · rw [if_neg hpb] at hb
        exact ih hids.2 ha hb

theorem mapGet_none_iff_not_mem_keys {α β : Type} [DecidableEq α]
    (m : List (α × β)) (k : α) :
    mapGet m k = none ↔ k ∉ m.map Prod.fst := by
  rw [mapGet_eq_none_iff]
  constructor
  · intro h hk
    rcases List.mem_map.mp hk with ⟨p, hp, hpk⟩
    exact h p hp hpk
  · intro h p hp hpk
    exact h (hpk ▸ List.mem_map_of_mem Prod.fst hp)

theorem filter_mapSet_self {α β : Type} [DecidableEq α] (m : List (α × β)) (k : α) (v : β)
    (hnd : (m.map Prod.fst).Nodup) :
    (mapSet m k v).filter (fun p => p.1 = k) = [(k, v)] := by
  induction m with
  | nil => simp [mapSet]
  | cons p rest ih =>
    simp only [List.map_cons, List.nodup_cons] at hnd
    rw [mapSet]
    by_cases hp : p.1 = k
    · rw [if_pos hp, List.filter_cons, if_pos (by simp)]
      have hrest : rest.filter (fun p => p.1 = k) = [] := by
        rw [List.filter_eq_nil_iff]
        intro q hq
        simp only [decide_eq_true_eq]
        intro e
        exact hnd.1 (hp ▸ e ▸ List.mem_map_of_mem Prod.fst hq)
      rw [hrest]
    · rw [if_neg hp, List.filter_cons, if_neg (by simpa using hp)]
      exact ih hnd.2

theorem keys_nodup_mapSet {α β : Type} [DecidableEq α] (m : List (α × β)) (k : α) (v : β)
    (hnd : (m.map Prod.fst).Nodup) :
    ((mapSet m k v).map Prod.fst).Nodup := by
  cases h : mapGet m k with
  | some v' => rw [keys_mapSet_of_mem _ _ _ _ h]; exact hnd
  | none =>
    rw [mapSet_eq_append _ _ _ h, List.map_append]
    have hk : k ∉ m.map Prod.fst := (mapGet_none_iff_not_mem_keys _ _).mp h
    simp [List.nodup_append, hnd, hk]

theorem onMessage_keys (st : ServerState) (ws : Conn) (m : InMsg) :
    (onMessage st ws m).1.players.map Prod.fst = st.players.map Prod.fst := by
  cases h : mapGet st.players ws with
  | none => simp only [onMessage, h]
  | some pd =>
    cases m with
    | blockChange face layer block => simp only [onMessage, h]
    | position pos fwd pitch =>
      simp only [onMessage, h]
      exact keys_mapSet_of_mem _ _ _ _ h
    | other => simp only [onMessage, h]
    | unparsable => simp only [onMessage, h]

theorem run_keys_openAfter :
    ∀ (events : List Event) (used opened : List Conn) (st : ServerState),
      validEvents used opened events = true →
      st.players.map Prod.fst = opened →
      (∀ c ∈ opened, c ∈ used) →
      opened.Nodup →
      (run st events).players.map Prod.fst = openAfter opened events ∧
      (openAfter opened events).Nodup := by
  intro events
  induction events with
  | nil =>
    intro used opened st _ hkeys _ hnd
    exact ⟨hkeys, hnd⟩
  | cons e rest ih =>
    intro used opened st hv hkeys hsub hnd
    cases e with
    | connect ws pid r1 r2 r3 =>
      rw [validEvents] at hv
      rcases Bool.and_eq_true_iff.mp hv with ⟨hnu, hv'⟩
      have hwsused : ws ∉ used := by simpa using hnu
      have hwsopen : ws ∉ opened := fun hmem => hwsused (hsub ws hmem)
      have hnone : mapGet st.players ws = none :=
        (mapGet_none_iff_not_mem_keys _ _).mpr (hkeys ▸ hwsopen)
      rw [run, openAfter]
      apply ih (ws :: used) (opened ++ [ws]) _ hv'
      · show (onConnection st ws pid r1 r2 r3).1.players.map Prod.fst = opened ++ [ws]
        simp only [onConnection]
        rw [mapSet_eq_append _ _ _ hnone, List.map_append, hkeys]
        rfl
      · intro c hc
        rcases List.mem_append.mp hc with hc | hc
        · exact List.mem_cons_of_mem _ (hsub c hc)
        · simp only [List.mem_singleton] at hc
          exact hc ▸ List.mem_cons_self _ _
      · simp [List.nodup_append, hnd, hwsopen]
    | message ws m' =>
      rw [validEvents] at hv
      rcases Bool.and_eq_true_iff.mp hv with ⟨_, hv'⟩
      rw [run, openAfter]
      exact ih used opened _ hv' ((onMessage_keys st ws m').trans hkeys) hsub hnd
    | close ws =>
      rw [validEvents] at hv
      rcases Bool.and_eq_true_iff.mp hv with ⟨hmem, hv'⟩
      have hmem' : ws ∈ opened := by simpa using hmem
      have hkmem : ws ∈ st.players.map Prod.fst := hkeys ▸ hmem'
      obtain ⟨pd, hpd⟩ : ∃ pd, mapGet st.players ws = some pd := by
        cases h : mapGet st.players ws with
        | none => exact absurd hkmem ((mapGet_none_iff_not_mem_keys _ _).mp h)
        | some pd => exact ⟨pd, rfl⟩
      rw [run, openAfter]
      apply ih used (opened.filter (fun c => c ≠ ws)) _ hv'
      · show (step st (Event.close ws)).1.players.map Prod.fst = opened.filter (fun c => c ≠ ws)
        simp only [step, hpd, onClose]
        rw [keys_mapDelete, hkeys]
      · intro c hc
        exact hsub c (List.mem_of_mem_filter hc)
      · exact hnd.filter _

/-! ## The claims -/

/-- C5: the World Delta Store holds at most one entry per key (keys stay
duplicate-free), a write to an existing key replaces the value so that the
store holds exactly the entry `(key, b)` for that key afterwards, and in
particular `apply(2,5,"stone")` then `apply(2,5,"dirt")` makes
`snapshotAll()` yield exactly one entry for `(2,5)`, with value `"dirt"`. -/
theorem c5_last_writer_wins (m : Store) (face layer b : Option JPrim)
    (hnd : (m.map Prod.fst).Nodup) :
    ((applyChange m face layer b).map Prod.fst).Nodup ∧
    (applyChange m face layer b).filter (fun p => p.1 = keyOf face layer) =
      [(keyOf face layer, b)] ∧
    snapshotAll (applyChange
        (applyChange [] (some (JPrim.jnum 2)) (some (JPrim.jnum 5))
          (some (JPrim.jstr "stone".data)))
        (some (JPrim.jnum 2)) (some (JPrim.jnum 5)) (some (JPrim.jstr "dirt".data))) =
      [(some 2, some 5, some (JPrim.jstr "dirt".data))] := by
  refine ⟨keys_nodup_mapSet _ _ _ hnd, filter_mapSet_self _ _ _ hnd, by decide⟩

/-- C5 witness: the general part of `c5_last_writer_wins` evaluated at the
empty store and a concrete write. -/
theorem c5_witness :
    (((([] : Store)).map Prod.fst).Nodup) ∧
    (((applyChange [] (some (JPrim.jnum 7)) (some (JPrim.jnum 8))
        (some (JPrim.jstr "x".data))).map Prod.fst).Nodup ∧
      (applyChange [] (some (JPrim.jnum 7)) (some (JPrim.jnum 8))
          (some (JPrim.jstr "x".data))).filter
          (fun p => p.1 = keyOf (some (JPrim.jnum 7)) (some (JPrim.jnum 8))) =
        [(keyOf (some (JPrim.jnum 7)) (some (JPrim.jnum 8)), some (JPrim.jstr "x".data))] ∧
      snapshotAll (applyChange
          (applyChange [] (some (JPrim.jnum 2)) (some (JPrim.jnum 5))
            (some (JPrim.jstr "stone".data)))
          (some (JPrim.jnum 2)) (some (JPrim.jnum 5)) (some (JPrim.jstr "dirt".data))) =
        [(some 2, some 5, some (JPrim.jstr "dirt".data))]) :=
  ⟨List.nodup_nil, c5_last_writer_wins [] (some (JPrim.jnum 7)) (some (JPrim.jnum 8))
    (some (JPrim.jstr "x".data)) List.nodup_nil⟩

/-- C9: the store keys entries by `` `${face}_${layer}` `` and decodes them
by splitting on `'_'` and converting with `Number`; for integer face and
layer the decode returns exactly the applied pair, and immediately after such
an `apply` the snapshot contains a numerically equal entry. The integer
precondition is required: for string-valued inputs the encoding is not
injective (two distinct `(face, layer)` pairs sharing one key) and decoded
values need not equal the applied ones (a non-numeric face decodes to `NaN`). -/
theorem c9_key_encoding :
    (∀ f l : Int,
      decodeKey (keyOf (some (JPrim.jnum f)) (some (JPrim.jnum l))) = (some f, some l)) ∧
    (∀ (s : Store) (f l : Int) (b : Option JPrim),
      (some f, some l, b) ∈
        snapshotAll (applyChange s (some (JPrim.jnum f)) (some (JPrim.jnum l)) b)) ∧
    (keyOf (some (JPrim.jstr "1_2".data)) (some (JPrim.jnum 3)) =
      keyOf (some (JPrim.jnum 1)) (some (JPrim.jstr "2_3".data))) ∧
    ((some (JPrim.jstr "1_2".data), some (JPrim.jnum 3)) ≠
      ((some (JPrim.jnum 1) : Option JPrim), (some (JPrim.jstr "2_3".data) : Option JPrim))) ∧
    ((decodeKey (keyOf (some (JPrim.jstr "a".data)) (some (JPrim.jnum 5)))).1 = none) := by
  refine ⟨decodeKey_keyOf_int, ?_, by decide, by decide, by decide⟩
  intro s f l b
  have hm := mem_mapSet_self s (keyOf (some (JPrim.jnum f)) (some (JPrim.jnum l))) b
  have h2 := List.mem_map_of_mem
    (fun p : List Char × Option JPrim => ((decodeKey p.1).1, (decodeKey p.1).2, p.2)) hm
  simpa [snapshotAll, applyChange, decodeKey_keyOf_int] using h2

/-- C7: a `position` message with `pitch` absent stores `pitch = 0` in the
record, keeps `position`/`forward` from the message, and every broadcast send
it causes is a `playerMove` carrying `pitch = 0`. -/
theorem c7_pitch_default (st : ServerState) (ws : Conn) (pos fwd : Option Vec3)
    (pd : PlayerData) (h : mapGet st.players ws = some pd) :
    mapGet (onMessage st ws (InMsg.position pos fwd none)).1.players ws =
      some { pd with position := pos, forward := fwd, pitch := 0 } ∧
    ∀ s ∈ (onMessage st ws (InMsg.position pos fwd none)).2,
      s.2 = OutMsg.playerMove pd.id pos fwd 0 := by
  simp only [onMessage, h, broadcast, jsOrOpt]
  exact ⟨mapGet_mapSet_self _ _ _, broadcastList_snd _ _ _ _⟩

/-- C7 witness: `c7_pitch_default` on the two-connection fixture. -/
theorem c7_witness :
    mapGet st2.players 0 = some pdA ∧
    (mapGet (onMessage st2 0 (InMsg.position (some (4, 5, 6)) (some (0, 1, 0)) none)).1.players 0 =
      some { pdA with position := some (4, 5, 6), forward := some (0, 1, 0), pitch := 0 } ∧
    ∀ s ∈ (onMessage st2 0 (InMsg.position (some (4, 5, 6)) (some (0, 1, 0)) none)).2,
      s.2 = OutMsg.playerMove pdA.id (some (4, 5, 6)) (some (0, 1, 0)) 0) :=
  ⟨rfl, c7_pitch_default st2 0 (some (4, 5, 6)) (some (0, 1, 0)) pdA rfl⟩

/-- C8: for a fresh connection handle, registration appends a record carrying
the freshly generated identity and color, default position `(0, 102, 0)`,
default forward `(0, 0, -1)` and default pitch `0`, keyed by the handle, and
looking the handle up returns exactly that record. -/
theorem c8_register_defaults (st : ServerState) (ws : Conn) (pid : ID) (r1 r2 r3 : ℚ)
    (h : mapGet st.players ws = none) :
    (onConnection st ws pid r1 r2 r3).1.players =
      st.players ++
        [(ws, ⟨pid, generateColor r1 r2 r3, some (0, 102, 0), some (0, 0, -1), 0⟩)] ∧
    mapGet (onConnection st ws pid r1 r2 r3).1.players ws =
      some ⟨pid, generateColor r1 r2 r3, some (0, 102, 0), some (0, 0, -1), 0⟩ := by
  constructor
  · show mapSet st.players ws _ = _
    exact mapSet_eq_append _ _ _ h
  · show mapGet (mapSet st.players ws _) ws = _
    exact mapGet_mapSet_self _ _ _

/-- C8 witness: `c8_register_defaults` on the two-connection fixture with a
fresh handle. -/
theorem c8_witness :
    mapGet st2.players 5 = none ∧
    ((onConnection st2 5 13 0 0 0).1.players =
      st2.players ++
        [(5, ⟨13, generateColor 0 0 0, some (0, 102, 0), some (0, 0, -1), 0⟩)] ∧
    mapGet (onConnection st2 5 13 0 0 0).1.players 5 =
      some ⟨13, generateColor 0 0 0, some (0, 102, 0), some (0, 0, -1), 0⟩) :=
  ⟨rfl, c8_register_defaults st2 5 13 0 0 0 rfl⟩

/-- C1 counterexample: the claim says a `blockChange` missing `face`, `layer`
and `block` is ignored with no World Delta Store mutation and no broadcast;
on the two-connection fixture such a message does mutate the store (an entry
keyed `"undefined_undefined"` appears) and is broadcast to connection 1. -/
theorem c1_counterexample :
    (onMessage st2 0 (InMsg.blockChange none none none)).1.worldChanges ≠
      st2.worldChanges ∧
    sendsTo 1 (onMessage st2 0 (InMsg.blockChange none none none)).2 =
      [OutMsg.blockChange none none none] := by
  constructor
  · decide
  · rfl

/-- C1 (amended): the handler performs no field validation. A payload on
which `JSON.parse` throws is caught and ignored (no state change, no send, no
close), and an unrecognized `type` is likewise ignored; but a `blockChange`
whose fields are absent is still applied to the World Delta Store (under a
key built from `undefined`) and still broadcast to the other connections;
the connection also stays registered and open in every case. -/
theorem c1_amended (st : ServerState) (ws : Conn) (face layer block : Option JPrim)
    (pd : PlayerData) (h : mapGet st.players ws = some pd) :
    onMessage st ws InMsg.unparsable = (st, []) ∧
    onMessage st ws InMsg.other = (st, []) ∧
    (onMessage st ws (InMsg.blockChange face layer block)).1.clients = st.clients ∧
    (onMessage st ws (InMsg.blockChange face layer block)).1.players = st.players ∧
    (onMessage st ws (InMsg.blockChange face layer block)).1.worldChanges =
      applyChange st.worldChanges face layer block ∧
    (onMessage st ws (InMsg.blockChange face layer block)).2 =
      broadcastList st.players (OutMsg.blockChange face layer block) (some pd.id)
        st.clients := by
  refine ⟨?_, ?_, ?_, ?_, ?_, ?_⟩ <;> simp only [onMessage, h, broadcast]

/-- C1 witness: `c1_amended` on the two-connection fixture with all
`blockChange` fields absent. -/
theorem c1_witness :
    mapGet st2.players 0 = some pdA ∧
    (onMessage st2 0 InMsg.unparsable = (st2, []) ∧
      onMessage st2 0 InMsg.other = (st2, []) ∧
      (onMessage st2 0 (InMsg.blockChange none none none)).1.clients = st2.clients ∧
      (onMessage st2 0 (InMsg.blockChange none none none)).1.players = st2.players ∧
      (onMessage st2 0 (InMsg.blockChange none none none)).1.worldChanges =
        applyChange st2.worldChanges none none none ∧
      (onMessage st2 0 (InMsg.blockChange none none none)).2 =
        broadcastList st2.players (OutMsg.blockChange none none none) (some pdA.id)
          st2.clients) :=
  ⟨rfl, c1_amended st2 0 none none none pdA rfl⟩

/-- C2: a connection registering on a fresh handle receives exactly one
`init` carrying its assigned id and color, then exactly one `playerJoin` per
PlayerRecord registered at that moment (carrying that peer's id, color,
position, forward, pitch), then exactly one `worldState` message if and only
if the World Delta Store is non-empty — and nothing else from this event: in
particular the join announcement broadcast contributes no message to it, so
the handshake precedes any broadcast delivered to it. -/
theorem c2_handshake (st : ServerState) (ws : Conn) (pid : ID) (r1 r2 r3 : ℚ)
    (h : mapGet st.players ws = none) :
    sendsTo ws (onConnection st ws pid r1 r2 r3).2 =
      OutMsg.init pid (generateColor r1 r2 r3) ::
        (st.players.map (fun p =>
          OutMsg.playerJoin p.2.id p.2.color p.2.position p.2.forward (jsOrQ p.2.pitch 0)) ++
          (if st.worldChanges ≠ [] then
            [OutMsg.worldState (snapshotAll st.worldChanges)]
          else [])) := by
  have hkeys : ∀ p ∈ st.players, p.1 ≠ ws := (mapGet_eq_none_iff _ _).mp h
  simp only [onConnection, broadcast]
  rw [List.cons_append, sendsTo, if_pos rfl]
  rw [sendsTo_append, sendsTo_append]
  rw [sendsTo_broadcastList_nil _ _ _ _ _ (fun pd' hpd' => by
    rw [mapGet_mapSet_self] at hpd'
    injection hpd' with e
    rw [← e])]
  rw [mapSet_eq_append _ _ _ h, joinMsgs_append, sendsTo_append,
    sendsTo_joinMsgs ws st.players hkeys]
  have hj2 : joinMsgs ws
      [(ws, (⟨pid, generateColor r1 r2 r3, some (0, 102, 0), some (0, 0, -1), 0⟩ :
        PlayerData))] = [] := by
    simp [joinMsgs]
  rw [hj2]
  by_cases hwc : st.worldChanges ≠ []
  · rw [if_pos hwc, if_pos hwc]
    simp [sendsTo]
  · rw [if_neg hwc, if_neg hwc]
    simp [sendsTo]

/-- C2 witness: `c2_handshake` on the two-connection fixture with a fresh
handle. -/
theorem c2_witness :
    mapGet st2.players 5 = none ∧
    sendsTo 5 (onConnection st2 5 13 0 0 0).2 =
      OutMsg.init 13 (generateColor 0 0 0) ::
        (st2.players.map (fun p =>
          OutMsg.playerJoin p.2.id p.2.color p.2.position p.2.forward (jsOrQ p.2.pitch 0)) ++
          (if st2.worldChanges ≠ [] then
            [OutMsg.worldState (snapshotAll st2.worldChanges)]
          else [])) :=
  ⟨rfl, c2_handshake st2 5 13 0 0 0 rfl⟩

/-- C3: a `position` message from a registered connection `ws` produces a
`playerMove` broadcast that is never delivered back to `ws` and is delivered
exactly once to every other open, registered connection. The exclusion is by
PlayerRecord id (`broadcast` skips exactly the connections whose record id
equals the exclude id), so the registered ids are assumed pairwise distinct,
as the UUID generator ensures. -/
theorem c3_no_echo_broadcast (st : ServerState) (ws : Conn) (pos fwd : Option Vec3)
    (pitch : Option ℚ) (pd : PlayerData)
    (hA : mapGet st.players ws = some pd)
    (hids : (st.players.map (fun p => p.2.id)).Nodup)
    (hcl : (st.clients.map Prod.fst).Nodup) :
    sendsTo ws (onMessage st ws (InMsg.position pos fwd pitch)).2 = [] ∧
    ∀ B B_pd, B ≠ ws → (B, true) ∈ st.clients → mapGet st.players B = some B_pd →
      sendsTo B (onMessage st ws (InMsg.position pos fwd pitch)).2 =
        [OutMsg.playerMove pd.id pos fwd (jsOrOpt pitch 0)] := by
  simp only [onMessage, hA, broadcast]
  constructor
  · apply sendsTo_broadcastList_nil
    intro pd' hpd'
    rw [mapGet_mapSet_self] at hpd'
    injection hpd' with e
    rw [← e]
  · intro B B_pd hBws hBcl hBpd
    apply sendsTo_broadcastList_single _ _ _ _ _ B_pd hcl hBcl
    · rw [mapGet_mapSet_ne _ _ _ _ hBws]
      exact hBpd
    · intro e
      injection e with e'
      exact mapGet_ids_ne hids hA hBpd (fun q => hBws q.symm) e'

/-- C3 witness: `c3_no_echo_broadcast` on the three-connection fixture, with
connection 0 sending and connections 1 and 2 receiving. -/
theorem c3_witness :
    (mapGet st3.players 0 = some pdA ∧
      (st3.players.map (fun p => p.2.id)).Nodup ∧
      (st3.clients.map Prod.fst).Nodup) ∧
    (sendsTo 0 (onMessage st3 0 (InMsg.position (some (1, 2, 3)) (some (0, 0, 1)) none)).2 =
        [] ∧
     ∀ B B_pd, B ≠ 0 → (B, true) ∈ st3.clients → mapGet st3.players B = some B_pd →
      sendsTo B (onMessage st3 0 (InMsg.position (some (1, 2, 3)) (some (0, 0, 1)) none)).2 =
        [OutMsg.playerMove pdA.id (some (1, 2, 3)) (some (0, 0, 1)) (jsOrOpt none 0)]) :=
  ⟨⟨rfl, by decide, by decide⟩,
    c3_no_echo_broadcast st3 0 (some (1, 2, 3)) (some (0, 0, 1)) none pdA rfl
      (by decide) (by decide)⟩

/-- C4 counterexample: the claim says teardown is idempotent — running it on
a record that was already removed produces no duplicate leave notice. On the
two-connection fixture, running the close handler for connection 0 twice
delivers `playerLeave{id: 10}` to connection 1 both times: the second run
produces a duplicate. -/
theorem c4_counterexample :
    sendsTo 1 (onClose st2 0 10).2 = [OutMsg.playerLeave 10] ∧
    sendsTo 1 (onClose (onClose st2 0 10).1 0 10).2 = [OutMsg.playerLeave 10] := by
  constructor
  · rfl
  · rfl

/-- C4 (amended): when a registered connection closes, its PlayerRecord is
removed from the registry (a subsequent lookup misses), the closing
connection receives nothing, and a `playerLeave` carrying its id is delivered
exactly once to every remaining open registered connection. The close handler
itself is not idempotent: invoked again for an already-removed record it
broadcasts a duplicate leave notice (`c4_counterexample`); no duplicate
arises in operation only because the transport fires `close` at most once per
connection. -/
theorem c4_amended (st : ServerState) (ws : Conn) (pd : PlayerData)
    (_hws : mapGet st.players ws = some pd)
    (hcl : (st.clients.map Prod.fst).Nodup) :
    mapGet (onClose st ws pd.id).1.players ws = none ∧
    sendsTo ws (onClose st ws pd.id).2 = [] ∧
    ∀ B B_pd, B ≠ ws → (B, true) ∈ st.clients → mapGet st.players B = some B_pd →
      sendsTo B (onClose st ws pd.id).2 = [OutMsg.playerLeave pd.id] := by
  simp only [onClose, broadcast]
  refine ⟨mapGet_mapDelete_self _ _, ?_, ?_⟩
  · apply sendsTo_broadcastList_nil
    intro pd' hpd'
    rw [mapGet_mapDelete_self] at hpd'
    exact absurd hpd' (by simp)
  · intro B B_pd hBws hBcl hBpd
    apply sendsTo_broadcastList_single _ _ _ _ _ B_pd
    · exact List.Nodup.sublist ((List.filter_sublist _).map Prod.fst) hcl
    · exact List.mem_filter.mpr ⟨hBcl, by simpa using hBws⟩
    · rw [mapGet_mapDelete_ne _ _ _ hBws]
      exact hBpd
    · simp

/-- C4 witness: `c4_amended` on the two-connection fixture, closing
connection 0. -/
theorem c4_witness :
    (mapGet st2.players 0 = some pdA ∧ (st2.clients.map Prod.fst).Nodup) ∧
    (mapGet (onClose st2 0 pdA.id).1.players 0 = none ∧
      sendsTo 0 (onClose st2 0 pdA.id).2 = [] ∧
      ∀ B B_pd, B ≠ 0 → (B, true) ∈ st2.clients → mapGet st2.players B = some B_pd →
        sendsTo B (onClose st2 0 pdA.id).2 = [OutMsg.playerLeave pdA.id]) :=
  ⟨⟨rfl, by decide⟩, c4_amended st2 0 pdA rfl (by decide)⟩

/-- C6: over every valid trace of connects, messages and disconnects, the
registry keys are exactly the currently open connections (those that
completed register and have not yet completed unregister), they are
duplicate-free (each handle maps to at most one PlayerRecord), and the
registry size equals the number of open connections. -/
theorem c6_registry_size (events : List Event) (h : validEvents [] [] events = true) :
    (run initState events).players.map Prod.fst = openAfter [] events ∧
    ((run initState events).players.map Prod.fst).Nodup ∧
    (run initState events).players.length = (openAfter [] events).length := by
  have hmain := run_keys_openAfter events [] [] initState h rfl (by simp) List.nodup_nil
  refine ⟨hmain.1, ?_, ?_⟩
  · rw [hmain.1]
    exact hmain.2
  · rw [← hmain.1, List.length_map]

/-- C6 witness: `c6_registry_size` on the fixture trace (two connects, then
one close). -/
theorem c6_witness :
    validEvents [] [] events0 = true ∧
    ((run initState events0).players.map Prod.fst = openAfter [] events0 ∧
      ((run initState events0).players.map Prod.fst).Nodup ∧
      (run initState events0).players.length = (openAfter [] events0).length) :=
  ⟨rfl, c6_registry_size events0 rfl⟩

/-- C10: each channel of `generateColor` lies in `[0.3, 1.0)` whenever the
three independent random draws lie in `[0, 1)` (the range of
`Math.random()`). -/
theorem c10_color_range (r1 r2 r3 : ℚ)
    (h1 : 0 ≤ r1 ∧ r1 < 1) (h2 : 0 ≤ r2 ∧ r2 < 1) (h3 : 0 ≤ r3 ∧ r3 < 1) :
    (3/10 ≤ (generateColor r1 r2 r3).r ∧ (generateColor r1 r2 r3).r < 1) ∧
    (3/10 ≤ (generateColor r1 r2 r3).g ∧ (generateColor r1 r2 r3).g < 1) ∧
    (3/10 ≤ (generateColor r1 r2 r3).b ∧ (generateColor r1 r2 r3).b < 1) := by
  simp only [generateColor]
  refine ⟨⟨?_, ?_⟩, ⟨?_, ?_⟩, ⟨?_, ?_⟩⟩ <;>
    nlinarith [h1.1, h1.2, h2.1, h2.2, h3.1, h3.2]

/-- C10 witness: `c10_color_range` at the draw `(0, 0, 0)`. -/
theorem c10_witness :
    ((0:ℚ) ≤ 0 ∧ (0:ℚ) < 1) ∧
    ((3/10 ≤ (generateColor 0 0 0).r ∧ (generateColor 0 0 0).r < 1) ∧
      (3/10 ≤ (generateColor 0 0 0).g ∧ (generateColor 0 0 0).g < 1) ∧
      (3/10 ≤ (generateColor 0 0 0).b ∧ (generateColor 0 0 0).b < 1)) :=
  ⟨⟨le_refl 0, by norm_num⟩,
    c10_color_range 0 0 0 ⟨le_refl 0, by norm_num⟩ ⟨le_refl 0, by norm_num⟩
      ⟨le_refl 0, by norm_num⟩⟩

end OpusGlobe

